import Mathlib

/-!
Verification of the sandpack-bundler core (src/bundler) against its
natural-language specification.

The development is a shallow embedding of the bundler engine:
`src/bundler/subgraphs.ts` (subgraph addressing), `Bundler.processPackageJSON`,
`Bundler.resolveEntryPoint`, `Bundler.writeNewFiles` and the incremental
prefix of `Bundler.compile` (src/bundler/bundler.ts), `Module.compile`
together with the subgraph-fork bookkeeping
(src/bundler/module, the fork-aware revision), `Bundler.moduleFinishedPromise`,
and the `Module.evaluate` / `Evaluation.getExports` / `require` execution
protocol.  External collaborators (the resolver, the JSON parser, the
individual transformers) are passed in as function-valued parameters, exactly
at the call boundaries the source uses.  JavaScript `Map` and `Set` objects
are modelled as association lists / dedup-on-insert lists, which preserves
their insertion-order iteration semantics; exceptions are modelled with
`Except`.
-/

namespace Sandpack

/-- Thrown JavaScript values.  `bundlerError` corresponds to
`new BundlerError(msg)`; `jsError` to any other thrown value. -/
inductive JsError where
  | bundlerError (msg : String)
  | jsError (msg : String)
deriving DecidableEq, Repr

/-! ## Subgraph addressing (src/bundler/subgraphs.ts) -/

/-- The two valid subgraph tags (`SUBGRAPHS` in subgraphs.ts). -/
inductive SubgraphId where
  | client
  | server
deriving DecidableEq, Repr

/-- The string value of a subgraph id. -/
def SubgraphId.str : SubgraphId → String
  | .client => "client"
  | .server => "server"

/-- Modelled from the spec: `getOtherSubgraph` is imported from
subgraphs.ts in bundler.ts but its definition is not among the provided
sources; per the spec there are exactly two subgraphs, client and server,
and the "other" subgraph swaps them (the hard-coded map in the earlier
Module revision confirms this). -/
def getOtherSubgraph : SubgraphId → SubgraphId
  | .client => .server
  | .server => .client

/-- Index of the first occurrence of a character in a list of characters,
mirroring JavaScript `String.prototype.indexOf`. -/
def indexOfChar (c : Char) : List Char → Option Nat
  | [] => none
  | x :: xs =>
    if x = c then some 0
    else (indexOfChar c xs).map (· + 1)

/-- Whether a string starts with `(`, as `path.startsWith('(')`. -/
def startsWithParen (path : String) : Bool :=
  match path.data with
  | [] => false
  | c :: _ => c = '('

/-- `toSubGraphPath(path, subgraphId)` from subgraphs.ts: prefixes the
resource path with the parenthesised subgraph tag; throws if the path is
already a subgraph path. -/
def toSubGraphPath (path : String) (subgraphId : Option SubgraphId) : Except JsError String :=
  match subgraphId with
  | none => .ok path
  | some g =>
    if startsWithParen path then
      .error (.jsError ("Path " ++ path ++ " is already a subgraph path"))
    else
      .ok ("(" ++ g.str ++ ")" ++ path)

/-- `unSubGraphPath(path, strict)` from subgraphs.ts: the source computes
`end = path.indexOf(')')` and returns `path.slice(end)`. -/
def unSubGraphPath (path : String) (strict : Bool := true) : Except JsError String :=
  if !startsWithParen path then
    if strict then .error (.jsError ("Path " ++ path ++ " is not a subgraph path"))
    else .ok path
  else
    match indexOfChar ')' path.data with
    | none => .error (.jsError ("Path " ++ path ++ " is not a valid subgraph path"))
    | some e => .ok (String.mk (path.data.drop e))

/-- `parseSubgraphPath(path, strict)` from subgraphs.ts: splits a module id
into `(resourcePath, subgraphId)`; the tag must be exactly `client` or
`server`, and the resource path is `path.slice(end + 1)`. -/
def parseSubgraphPath (path : String) (strict : Bool := true) :
    Except JsError (String × Option SubgraphId) :=
  if !startsWithParen path then
    if strict then .error (.jsError ("Path " ++ path ++ " is not a subgraph path"))
    else .ok (path, none)
  else
    match indexOfChar ')' path.data with
    | none => .error (.jsError ("Path " ++ path ++ " is not a valid subgraph path"))
    | some e =>
      let resourcePath := String.mk (path.data.drop (e + 1))
      let parsedSubgraphId := String.mk ((path.data.drop 1).take (e - 1))
      if parsedSubgraphId = "client" then .ok (resourcePath, some .client)
      else if parsedSubgraphId = "server" then .ok (resourcePath, some .server)
      else .error (.jsError ("Invalid subgraph ID " ++ parsedSubgraphId ++ " from path " ++ path))

/-! ## Association-list helpers (JavaScript `Map` semantics) -/

/-- `map.get(k)`. -/
def assocGet {α : Type} (l : List (String × α)) (k : String) : Option α :=
  (l.find? (fun kv => kv.1 = k)).map (·.2)

/-- `map.set(k, v)`: overwrite in place (keeping the original insertion
position) or append. -/
def assocSet {α : Type} (l : List (String × α)) (k : String) (v : α) : List (String × α) :=
  if (l.find? (fun kv => kv.1 = k)).isSome then
    l.map (fun kv => if kv.1 = k then (k, v) else kv)
  else
    l ++ [(k, v)]

/-- `map.delete(k)`. -/
def assocDelete {α : Type} (l : List (String × α)) (k : String) : List (String × α) :=
  l.filter (fun kv => kv.1 ≠ k)

/-- `set.add(x)` on a JavaScript `Set`: insert at the end unless present. -/
def setInsert (l : List String) (x : String) : List String :=
  if x ∈ l then l else l ++ [x]

/-! ## package.json processing (Bundler.processPackageJSON) -/

/-- The fields of a parsed package.json the bundler core reads
(`IPackageJSON` in src/types; `main`, `source`, `module` are consulted by
`resolveEntryPoint`, `dependencies` by `loadNodeModules`). -/
structure IPackageJSON where
  main : Option String := none
  source : Option String := none
  module : Option String := none
  dependencies : List (String × String) := []
deriving DecidableEq, Repr

/-- `Bundler.processPackageJSON()` (bundler.ts): parses the content read
from `/package.json` with `JSON.parse` (passed in as the external function
`parse`) and stores the result in `parsedPackageJSON`; a parse failure is
re-thrown only when no previously parsed package.json exists, otherwise it
is swallowed and the previous value kept.  Returns the new value of
`parsedPackageJSON`. -/
def processPackageJSON (parse : String → Except JsError IPackageJSON)
    (content : String) (parsedPackageJSON : Option IPackageJSON) :
    Except JsError (Option IPackageJSON) :=
  match parse content with
  | .ok p => .ok (some p)
  | .error err =>
    match parsedPackageJSON with
    | none => .error err
    | some prev => .ok (some prev)

/-! ## Entry point resolution (Bundler.resolveEntryPoint) -/

/-- The slice of the Preset contract that `resolveEntryPoint` consumes. -/
structure PresetEntryInfo where
  defaultEntryPoints : List String
deriving DecidableEq, Repr

/-- Helper for `dedupKeepFirst`: drop elements already seen. -/
def dedupKeepFirstAux (seen : List String) : List String → List String
  | [] => []
  | x :: xs =>
    if x ∈ seen then dedupKeepFirstAux seen xs
    else x :: dedupKeepFirstAux (x :: seen) xs

/-- JavaScript `new Set(list)` iteration order: deduplicate keeping the
first occurrence of each element. -/
def dedupKeepFirst (l : List String) : List String :=
  dedupKeepFirstAux [] l

/-- Path normalization inside `resolveEntryPoint`: prepend `./` unless the
candidate starts with `.` or `/` (an empty candidate gets `./`, matching
`potentialEntry[0] !== '.'` on `undefined`). -/
def normalizeEntry (e : String) : String :=
  match e.data with
  | [] => "./" ++ e
  | c :: _ => if c = '.' ∨ c = '/' then e else "./" ++ e

/-- Candidate entry points in the order the source array literal builds
them: package.json `main`, `source`, `module` (dropping non-string
fields), then the preset default entry points suffixed with `.` plus the
subgraph id when one is given, then the plain preset default entry
points. -/
def entryCandidates (pkg : IPackageJSON) (preset : PresetEntryInfo)
    (subgraphId : Option SubgraphId) : List String :=
  ([pkg.main, pkg.source, pkg.module].filterMap id) ++
    (match subgraphId with
     | some g => preset.defaultEntryPoints.map (fun s => s ++ "." ++ g.str)
     | none => []) ++
    preset.defaultEntryPoints

/-- First candidate accepted by the resolution oracle. -/
def firstResolved (tryResolve : String → Option String) : List String → Option String
  | [] => none
  | c :: cs =>
    match tryResolve (normalizeEntry c) with
    | some r => some r
    | none => firstResolved tryResolve cs

/-- `Bundler.resolveEntryPoint(subgraphId)` (bundler.ts): throws a
BundlerError when package.json has not been parsed or no preset is loaded;
otherwise tries each deduplicated candidate in order through
`resolveAsync` (abstracted as the oracle `tryResolve`, `none` meaning the
resolution threw) and returns the first success, throwing a BundlerError
when none resolves. -/
def resolveEntryPoint (parsedPackageJSON : Option IPackageJSON)
    (preset : Option PresetEntryInfo) (tryResolve : String → Option String)
    (subgraphId : Option SubgraphId) : Except JsError String :=
  match parsedPackageJSON with
  | none => .error (.bundlerError "No parsed package.json found!")
  | some pkg =>
    match preset with
    | none => .error (.bundlerError "Preset has not been loaded yet")
    | some pr =>
      match firstResolved tryResolve (dedupKeepFirst (entryCandidates pkg pr subgraphId)) with
      | some r => .ok r
      | none => .error (.bundlerError "Could not resolve entry point")

/-! ## File writing and the incremental compile prefix -/

/-- The in-memory filesystem as the bundler core observes it: an
association list from path to content.  `readFileSync` on a missing path
throws in the source; here it returns `none`. -/
structure SandboxFS where
  files : List (String × String)
deriving DecidableEq, Repr

/-- Look up a file's content. -/
def SandboxFS.read (fs : SandboxFS) (path : String) : Option String :=
  assocGet fs.files path

/-- `fs.writeFile(path, content)`: overwrite or insert (JavaScript `Map`
semantics). -/
def SandboxFS.write (fs : SandboxFS) (path content : String) : SandboxFS :=
  ⟨assocSet fs.files path content⟩

/-- One file of a compile request (`ISandboxFile`). -/
structure ISandboxFile where
  path : String
  code : String
deriving DecidableEq, Repr

/-- `Bundler.writeNewFiles(files)` (bundler.ts): for each file in order,
read the current content (a missing file is a caught exception), record
the path when the existing content differs from the incoming code, and
write the incoming code unconditionally.  Returns the updated filesystem
and the recorded paths. -/
def writeNewFiles (fs : SandboxFS) (files : List ISandboxFile) :
    SandboxFS × List String :=
  match files with
  | [] => (fs, [])
  | file :: rest =>
    let changedHere :=
      match fs.read file.path with
      | some content => if content ≠ file.code then [file.path] else []
      | none => []
    let fs' := fs.write file.path file.code
    let (fs'', res) := writeNewFiles fs' rest
    (fs'', changedHere ++ res)

/-- Outcome of the incremental prefix of `Bundler.compile(files)`. -/
inductive CompilePrefixOutcome where
  | noopThunk
  | fullReload
  | proceed (changedFiles : List String)
deriving DecidableEq, Repr

/-- The incremental prefix of `Bundler.compile(files)` (bundler.ts): on a
non-first load, write the incoming files recording which changed; when no
file changed, short-circuit returning a no-op thunk; when something
changed without HMR capability, force a full page reload; otherwise
proceed with the changed list.  On first load all files are written
verbatim and compilation proceeds with an empty changed list. -/
def compileIncrementalPrefix (isFirstLoad hasHMR : Bool) (fs : SandboxFS)
    (files : List ISandboxFile) : SandboxFS × CompilePrefixOutcome :=
  if isFirstLoad then
    (files.foldl (fun acc f => acc.write f.path f.code) fs, .proceed [])
  else
    let (fs', changedFiles) := writeNewFiles fs files
    if changedFiles.isEmpty then (fs', .noopThunk)
    else if !hasHMR then (fs', .fullReload)
    else (fs', .proceed changedFiles)

/-! ## Module compilation (Module.compile, fork-aware revision) -/

/-- The value a transformer's `transform` resolves to: either a structured
`BundlerError` or `(code, dependencies, isSubgraphFork)`. -/
inductive TransformResult where
  | bundlerError (e : JsError)
  | success (code : String) (dependencies : List String) (isSubgraphFork : Bool)
deriving DecidableEq, Repr

/-- A transformer as `Module.compile` consumes it: input code to result;
`Except.error` models a rejected `transform` call. -/
def TransformerFn : Type := String → Except JsError TransformResult

/-- One endpoint of a subgraph fork record. -/
structure ForkEndpoint where
  subgraphId : SubgraphId
  moduleId : String
deriving DecidableEq, Repr

/-- `SubgraphForkInfo` from bundler.ts. -/
structure SubgraphForkInfo where
  source : ForkEndpoint
  target : ForkEndpoint
deriving DecidableEq, Repr

/-- The fields of `Module` that `compile`, `addDependency` and
`resetCompilation` read and write. -/
structure ModuleC where
  id : String
  filepath : String
  subgraphId : Option SubgraphId
  source : String
  compiled : Option String := none
  compilationError : Option JsError := none
  dependencies : List String := []
  dependencyMap : List (String × String) := []
deriving DecidableEq, Repr

/-- The bundler-wide state `Module.compile` touches:
`isResourceSubgraphFork` (keyed by resource path), the fire-and-forget
`transformModule` requests it issues, the `initiators` reverse index, and
a count of `transformer.transform` invocations (observability for the
short-circuit claims). -/
structure BundlerC where
  forkMap : List (String × SubgraphForkInfo) := []
  scheduledTransforms : List String := []
  initiators : List (String × String) := []
  transformerCalls : Nat := 0
deriving Repr

/-- The external collaborators of one `Module.compile` run: the ordered
transformer list `preset.getTransformers(this)` (`none` models an
uninitialized preset) and `bundler.resolveAsync(spec, this.filepath,
subgraphId)` specialised to this module. -/
structure CompileEnv where
  preset : Option (List TransformerFn)
  resolveDep : String → Except JsError String

/-- `Module.addDependency(depSpecifier)`: resolve, record in
`dependencies` (a `Set`) and `dependencyMap` (a `Map`), and register this
module as an initiator of the target. -/
def addDependency (env : CompileEnv) (m : ModuleC) (b : BundlerC) (depSpecifier : String) :
    Except JsError (ModuleC × BundlerC) :=
  match env.resolveDep depSpecifier with
  | .error e => .error e
  | .ok resolved =>
    .ok ({ m with dependencies := setInsert m.dependencies resolved,
                  dependencyMap := assocSet m.dependencyMap depSpecifier resolved },
         { b with initiators := b.initiators ++ [(resolved, m.id)] })

/-- The `Promise.all(dependencies.map(addDependency))` step; a rejection
carries the state mutated so far. -/
def addDependencies (env : CompileEnv) (deps : List String) (m : ModuleC) (b : BundlerC) :
    Except (JsError × ModuleC × BundlerC) (ModuleC × BundlerC) :=
  match deps with
  | [] => .ok (m, b)
  | d :: rest =>
    match addDependency env m b d with
    | .error e => .error (e, m, b)
    | .ok (m', b') => addDependencies env rest m' b'

/-- The `for (const [transformer, config] of transformers)` loop of
`Module.compile` (fork-aware revision), carrying the current code and the
`markedAsSubgraphFork` flag; a thrown error carries the mutated state for
the enclosing `catch`. -/
def compileLoop (env : CompileEnv) :
    List TransformerFn → String → Bool → ModuleC → BundlerC →
    Except (JsError × ModuleC × BundlerC) (String × ModuleC × BundlerC)
  | [], code, _, m, b => .ok (code, m, b)
  | t :: ts, code, marked, m, b =>
    let b := { b with transformerCalls := b.transformerCalls + 1 }
    match t code with
    | .error e => .error (e, m, b)
    | .ok (.bundlerError e) =>
      compileLoop env ts code marked { m with compilationError := some e } b
    | .ok (.success newCode deps isFork) =>
      let forkStep : Except (JsError × ModuleC × BundlerC) (Bool × BundlerC) :=
        if marked then .ok (marked, b)
        else
          match m.subgraphId with
          | none => .ok (marked, b)
          | some g =>
            let existing := assocGet b.forkMap m.filepath
            if isFork then
              match toSubGraphPath m.filepath (some (getOtherSubgraph g)) with
              | .error e => .error (e, m, b)
              | .ok otherId =>
                let other : ForkEndpoint := ⟨getOtherSubgraph g, otherId⟩
                .ok (true,
                  { b with
                    forkMap := assocSet b.forkMap m.filepath ⟨⟨g, m.id⟩, other⟩,
                    scheduledTransforms := b.scheduledTransforms ++ [otherId] })
            else
              match existing with
              | some f =>
                if f.target.moduleId = m.id then .ok (marked, b)
                else .ok (marked, { b with forkMap := assocDelete b.forkMap m.filepath })
              | none => .ok (marked, b)
      match forkStep with
      | .error e => .error e
      | .ok (marked', b') =>
        match addDependencies env deps m b' with
        | .error e => .error e
        | .ok (m', b'') => compileLoop env ts newCode marked' m' b''

/-- `Module.compile()` (fork-aware revision): no-op when already compiled
or already holding a compilation error; otherwise run the transformer
chain inside a `try` whose `catch` stores the thrown error as the
module's `compilationError`.  After the loop the accumulated code is
stored in `compiled`. -/
def compileModule (env : CompileEnv) (m : ModuleC) (b : BundlerC) : ModuleC × BundlerC :=
  if m.compiled ≠ none ∨ m.compilationError ≠ none then (m, b)
  else
    let body : Except (JsError × ModuleC × BundlerC) (String × ModuleC × BundlerC) :=
      match env.preset with
      | none => .error (.jsError "Preset has not been initialized", m, b)
      | some transformers =>
        if transformers.isEmpty then
          .error (.jsError ("No transformers found for " ++ m.id), m, b)
        else
          compileLoop env transformers m.source false m b
    match body with
    | .ok (code, m', b') => ({ m' with compiled := some code }, b')
    | .error (err, m', b') => ({ m' with compilationError := some err }, b')

/-! ## moduleFinishedPromise (Bundler.moduleFinishedPromise)

The bundler is modelled at a quiescent instant: every entry of the
transformation queue has settled, so `await
this.transformationQueue.getItem(id)` is a completed step and the module
map is stable.  The recursion is implemented with explicit fuel (the
recursion of the source terminates because the shared `visited` set only
grows with module-map keys); `moduleFinishedPromise` below supplies a fuel
bound that is provably sufficient. -/

/-- The fields of a module that `moduleFinishedPromise` reads. -/
structure ModuleF where
  compilationError : Option JsError := none
  compiled : Option String := none
  dependencies : List String := []
deriving DecidableEq, Repr

/-- The bundler state `moduleFinishedPromise` traverses. -/
structure BundlerF where
  modules : List (String × ModuleF)
deriving DecidableEq, Repr

mutual

/-- Fuelled body of `moduleFinishedPromise(id, moduleIds)`: return at once
for a visited id; throw for a missing asset; re-throw a stored
compilation error; throw for a module that exists but was never compiled;
otherwise add the id to the visited set and recurse into the
dependencies.  `none` means the fuel ran out (never happens for the bound
used below). -/
def mfpGo (st : BundlerF) (fuel : Nat) (id : String) (visited : List String) :
    Option (Except JsError (List String)) :=
  match fuel with
  | 0 => none
  | fuel + 1 =>
    if id ∈ visited then some (.ok visited)
    else
      match assocGet st.modules id with
      | none => some (.error (.bundlerError ("Asset not in the compilation tree " ++ id)))
      | some asset =>
        match asset.compilationError with
        | some e => some (.error e)
        | none =>
          match asset.compiled with
          | none => some (.error (.bundlerError ("Asset " ++ id ++ " has not been compiled")))
          | some _ => mfpDeps st fuel asset.dependencies (id :: visited)

/-- The `for (const dep of asset.dependencies)` loop: skip visited
dependencies, recurse into the rest, re-throwing the first failure. -/
def mfpDeps (st : BundlerF) (fuel : Nat) (deps : List String) (visited : List String) :
    Option (Except JsError (List String)) :=
  match deps with
  | [] => some (.ok visited)
  | d :: rest =>
    if d ∈ visited then mfpDeps st fuel rest visited
    else
      match mfpGo st fuel d visited with
      | none => none
      | some (.error e) => some (.error e)
      | some (.ok v) => mfpDeps st fuel rest v

end

/-- Fuel that always suffices for `mfpGo`: one more than the number of
module-map entries. -/
def fuelBound (st : BundlerF) : Nat := st.modules.length + 1

/-- `Bundler.moduleFinishedPromise(id, moduleIds)`: the fuelled body at
the sufficient bound (the default value never surfaces, see
`mfpGo_isSome`). -/
def moduleFinishedPromise (st : BundlerF) (id : String) (visited : List String := []) :
    Except JsError (List String) :=
  (mfpGo st (fuelBound st) id visited).getD (.error (.jsError "out of fuel"))

/-- A module id that `moduleFinishedPromise` accepts on its own: present,
no stored compilation error, compiled. -/
def goodModule (st : BundlerF) (x : String) : Prop :=
  ∃ mod, assocGet st.modules x = some mod ∧
    mod.compilationError = none ∧ mod.compiled ≠ none

/-- Reachability in the dependency graph: the nodes visited by following
`dependencies` edges from `root` through modules present in the map. -/
inductive Reach (st : BundlerF) (root : String) : String → Prop where
  | refl : Reach st root root
  | step {b c : String} {mod : ModuleF} : Reach st root b →
      assocGet st.modules b = some mod → c ∈ mod.dependencies → Reach st root c

/-- The number of distinct module-map keys not yet visited: the measure
that shrinks at every recursive level of `mfpGo`. -/
def unvisitedKeys (st : BundlerF) (visited : List String) : Nat :=
  ((st.modules.map Prod.fst).dedup.filter (fun k => k ∉ visited)).length

/-! ## Evaluation (Evaluation.getExports / require, Module.evaluate)

Modelled from the spec where the sources are external: the sandboxed
executor `evaluate` of module/eval is not among the provided sources; per
the spec it runs the compiled code with the supplied `exports` object, the
scoped `require` and the evaluation context.  Compiled code is therefore
embedded as a small instruction list — set an export, or store the result
of a `require` into an export — which is all the executor surface the
evaluation protocol observes.  The HMR context (`module.hot`) of a module
is in its initial state (`hmrConfig` unset), so `Module.evaluate`'s
dispose/accept branches are inactive and the evaluation is never reset
mid-flight.  Evaluations are stored in their module (an arena keyed by
module id), and a `require` observation snapshots the exports object at
the moment of the call. -/

/-- A JavaScript value as far as the export protocol observes it. -/
inductive Val where
  | str (s : String)
  | obj (fields : List (String × Val))

/-- One statement of compiled module code. -/
inductive Instr where
  | setExport (key value : String)
  | requireInto (key specifier : String)

/-- `EvaluationStatus` from Evaluation.ts. -/
inductive EvStatus where
  | notEvaluated
  | started
  | finished
  | failed
deriving DecidableEq, Repr

/-- An `Evaluation`: its status, the `context.exports` object and the
stored error of a failed run. -/
structure EvaluationE where
  status : EvStatus
  exports : List (String × Val)
  error : Option String

/-- The fields of `Module` that the evaluation protocol reads. -/
structure ModuleE where
  compiled : Option (List Instr)
  dependencyMap : List (String × String)
  evaluation : Option EvaluationE

/-- The module arena during evaluation. -/
structure SysE where
  modules : List (String × ModuleE)

/-- Replace the evaluation slot of one module. -/
def setEvaluation (σ : SysE) (id : String) (ev : Option EvaluationE) : SysE :=
  ⟨σ.modules.map (fun kv => if kv.1 = id then (kv.1, { kv.2 with evaluation := ev }) else kv)⟩

/-- Update the current evaluation of one module, if any. -/
def updEvaluation (σ : SysE) (id : String) (f : EvaluationE → EvaluationE) : SysE :=
  ⟨σ.modules.map (fun kv =>
    if kv.1 = id then (kv.1, { kv.2 with evaluation := kv.2.evaluation.map f }) else kv)⟩

/-- The tail of `Evaluation.getExports()` after the one-shot execution
block: re-throw the stored error of a failed evaluation, otherwise return
the current (for a still-started evaluation: possibly incomplete) exports
object. -/
def postExports (σ : SysE) (id : String) : SysE × Except String (List (String × Val)) :=
  match assocGet σ.modules id with
  | none => (σ, .error "internal: unknown module")
  | some m =>
    match m.evaluation with
    | none => (σ, .error "internal: evaluation missing")
    | some ev =>
      match ev.status with
      | .failed => (σ, .error (ev.error.getD "unknown evaluation error"))
      | _ => (σ, .ok ev.exports)

mutual

/-- `Module.evaluate()`: return at once when an evaluation already exists
(already evaluating or evaluated); otherwise construct a fresh
`Evaluation`, assign it to the module *before* executing, and run
`getExports()` once (whose failure propagates). -/
def evaluateM (σ : SysE) (fuel : Nat) (id : String) : Option (SysE × Except String Unit) :=
  match fuel with
  | 0 => none
  | fuel + 1 =>
    match assocGet σ.modules id with
    | none => some (σ, .error "internal: unknown module")
    | some m =>
      match m.evaluation with
      | some _ => some (σ, .ok ())
      | none =>
        let σ1 := setEvaluation σ id (some ⟨.notEvaluated, [], none⟩)
        match getExportsM σ1 fuel id with
        | none => none
        | some (σ2, .error e) => some (σ2, .error e)
        | some (σ2, .ok _) => some (σ2, .ok ())

/-- `Evaluation.getExports()`: on a not-yet-evaluated evaluation, require
compiled code, move to Started, execute the code (success moves to
Finished, an exception is stored and moves to Failed), then fall through
to `postExports`; any other status falls through directly — in
particular a still-Started evaluation returns its current exports
without re-executing. -/
def getExportsM (σ : SysE) (fuel : Nat) (id : String) :
    Option (SysE × Except String (List (String × Val))) :=
  match fuel with
  | 0 => none
  | fuel + 1 =>
    match assocGet σ.modules id with
    | none => some (σ, .error "internal: unknown module")
    | some m =>
      match m.evaluation with
      | none => some (σ, .error "internal: evaluation missing")
      | some ev =>
        match ev.status with
        | .notEvaluated =>
          match m.compiled with
          | none => some (σ, .error ("Internal error :: module " ++ id ++
              " was not compiled before evaluating"))
          | some code =>
            let σ1 := updEvaluation σ id (fun e => { e with status := .started })
            match runCode σ1 fuel id code with
            | none => none
            | some (σ2, .ok _) =>
              some (postExports (updEvaluation σ2 id (fun e => { e with status := .finished })) id)
            | some (σ2, .error err) =>
              some (postExports
                (updEvaluation σ2 id (fun e =>
                  { e with status := .failed, error := some err })) id)
        | _ => some (postExports σ id)

/-- Execute the statements of a module's compiled code in order, mutating
the module's current exports object; an exception aborts the run. -/
def runCode (σ : SysE) (fuel : Nat) (id : String) (code : List Instr) :
    Option (SysE × Except String Unit) :=
  match fuel with
  | 0 => none
  | fuel + 1 =>
    match code with
    | [] => some (σ, .ok ())
    | .setExport k v :: rest =>
      runCode (updEvaluation σ id (fun e => { e with exports := assocSet e.exports k (.str v) }))
        fuel id rest
    | .requireInto k spec :: rest =>
      match requireM σ fuel id spec with
      | none => none
      | some (σ1, .error e) => some (σ1, .error e)
      | some (σ1, .ok v) =>
        runCode (updEvaluation σ1 id (fun e => { e with exports := assocSet e.exports k v }))
          fuel id rest

/-- `Evaluation.require(specifier)` for a statically collected
dependency: look up the resolved id in the module's `dependencyMap`,
require the target module to exist, trigger `evaluate()` on it and return
its exports (the dynamic-import path for an uncollected specifier is the
asynchronous branch of the source and is outside this model). -/
def requireM (σ : SysE) (fuel : Nat) (id : String) (specifier : String) :
    Option (SysE × Except String Val) :=
  match fuel with
  | 0 => none
  | fuel + 1 =>
    match assocGet σ.modules id with
    | none => some (σ, .error "internal: unknown module")
    | some m =>
      match assocGet m.dependencyMap specifier with
      | none => some (σ, .error ("dynamic import of " ++ specifier ++ " not modelled"))
      | some target =>
        match assocGet σ.modules target with
        | none => some (σ, .error ("Module " ++ target ++ " has not been transpiled"))
        | some _ =>
          match evaluateM σ fuel target with
          | none => none
          | some (σ1, .error e) => some (σ1, .error e)
          | some (σ1, .ok _) =>
            match getExportsM σ1 fuel target with
            | none => none
            | some (σ2, .error e) => some (σ2, .error e)
            | some (σ2, .ok ex) => some (σ2, .ok (.obj ex))

end

/-! ## Concrete scenarios used by the theorems below -/

/-- A structured transformer error. -/
def errSyntax : JsError := .bundlerError "SyntaxError near line 1"

/-- A transformer chain whose only transformer reports a structured
`BundlerError`. -/
def envSingleError : CompileEnv :=
  ⟨some [fun _ => .ok (.bundlerError errSyntax)], fun s => .ok s⟩

/-- A transformer chain whose first transformer reports a structured
`BundlerError` and whose second succeeds with fresh code. -/
def envErrorThenSuccess : CompileEnv :=
  ⟨some [fun _ => .ok (.bundlerError errSyntax), fun _ => .ok (.success "OK" [] false)],
   fun s => .ok s⟩

/-- A freshly constructed, uncompiled module without a subgraph tag. -/
def freshModule : ModuleC :=
  { id := "/index.js", filepath := "/index.js", subgraphId := none, source := "var x" }

/-- A module that is already compiled. -/
def precompiledModule : ModuleC :=
  { id := "/x.js", filepath := "/x.js", subgraphId := none, source := "s", compiled := some "s" }

/-- A transformer chain whose only transformer reports a subgraph fork. -/
def envForkOnce : CompileEnv :=
  ⟨some [fun _ => .ok (.success "F" [] true)], fun s => .ok s⟩

/-- A transformer chain whose only transformer succeeds without a fork. -/
def envNoFork : CompileEnv :=
  ⟨some [fun _ => .ok (.success "N" [] false)], fun s => .ok s⟩

/-- The client-subgraph module of the resource /App.js. -/
def clientAppModule : ModuleC :=
  { id := "(client)/App.js", filepath := "/App.js", subgraphId := some .client, source := "app" }

/-- A bundler state already holding a fork record for /App.js whose
target is the server counterpart. -/
def forkedBundler : BundlerC :=
  { forkMap := [("/App.js",
      ⟨⟨.client, "(client)/App.js"⟩, ⟨.server, "(server)/App.js"⟩⟩)] }

/-- A module map with a single module holding a compilation error. -/
def stErrored : BundlerF :=
  ⟨[("/a.js", { compilationError := some errSyntax })]⟩

/-- A JSON parser that always fails. -/
def parseAlwaysFails : String → Except JsError IPackageJSON :=
  fun _ => .error (.jsError "Unexpected token u in JSON at position 0")

/-- Compiled code of module A for the circular-import scenario: set an
export, require B, set another export. -/
def codeA : List Instr := [.setExport "a1" "1", .requireInto "b" "B", .setExport "a2" "2"]

/-- Compiled code of module B for the circular-import scenario: require A
into an export. -/
def codeB : List Instr := [.requireInto "a" "A"]

/-- The circular-import system: A and B each depend on the other, both
compiled, neither evaluated. -/
def sysAB : SysE :=
  ⟨[("A", ⟨some codeA, [("B", "B")], none⟩),
    ("B", ⟨some codeB, [("A", "A")], none⟩)]⟩

/-- The state after evaluating A in `sysAB`: both evaluations finished;
B observed only the partial exports of A (the `a1` binding set before
A required B, without `b` or `a2`). -/
def sysABFinal : SysE :=
  ⟨[("A", ⟨some codeA, [("B", "B")],
      some ⟨.finished,
        [("a1", .str "1"),
         ("b", .obj [("a", .obj [("a1", .str "1")])]),
         ("a2", .str "2")], none⟩⟩),
    ("B", ⟨some codeB, [("A", "A")],
      some ⟨.finished, [("a", .obj [("a1", .str "1")])], none⟩⟩)]⟩

/-- A system with a single module whose evaluation is still Started. -/
def startedSys : SysE :=
  ⟨[("S", ⟨some [], [], some ⟨.started, [("k", .str "v")], none⟩⟩)]⟩

/-- Whether a file previously existed with content different from the
incoming code — the membership condition the spec states for the list
`writeNewFiles` returns. -/
def changedAgainst (fs : SandboxFS) (f : ISandboxFile) : Bool :=
  match fs.read f.path with
  | some c => c != f.code
  | none => false

/-- A filesystem holding one old file. -/
def fsOldNew : SandboxFS := ⟨[("/old.js", "1")]⟩

/-- An update changing the old file and adding a new one. -/
def filesOldNew : List ISandboxFile := [⟨"/old.js", "2"⟩, ⟨"/new.js", "n"⟩]

/-! ## Helper lemmas on the association-list operations -/

theorem assocGet_cons {α : Type} (a : String × α) (l : List (String × α)) (k : String) :
    assocGet (a :: l) k = if a.1 = k then some a.2 else assocGet l k := by
  by_cases h : a.1 = k <;> simp [assocGet, List.find?, h]

theorem assocGet_append {α : Type} (l1 l2 : List (String × α)) (k : String) :
    assocGet (l1 ++ l2) k =
      match assocGet l1 k with
      | some v => some v
      | none => assocGet l2 k := by
  induction l1 with
  | nil => simp [assocGet]
  | cons a l ih => by_cases h : a.1 = k <;> simp [assocGet_cons, h, ih]

theorem assocGet_overwrite {α : Type} (l : List (String × α)) (k : String) (v : α) :
    assocGet (l.map (fun kv => if kv.1 = k then (k, v) else kv)) k =
      (assocGet l k).map (fun _ => v) := by
  induction l with
  | nil => rfl
  | cons a l ih =>
    by_cases h : a.1 = k
    · rw [List.map_cons, if_pos h, assocGet_cons, assocGet_cons, if_pos h]
      simp
    · rw [List.map_cons, if_neg h, assocGet_cons, assocGet_cons, if_neg h, if_neg h, ih]

theorem assocGet_overwrite_ne {α : Type} (l : List (String × α)) (k k2 : String) (v : α)
    (h : k2 ≠ k) :
    assocGet (l.map (fun kv => if kv.1 = k then (k, v) else kv)) k2 = assocGet l k2 := by
  induction l with
  | nil => rfl
  | cons a l ih =>
    by_cases ha : a.1 = k
    · rw [List.map_cons, if_pos ha, assocGet_cons, assocGet_cons]
      have h1 : ((k, v) : String × α).1 ≠ k2 := fun hk => h hk.symm
      have h2 : a.1 ≠ k2 := by rw [ha]; exact fun hk => h hk.symm
      rw [if_neg h1, if_neg h2, ih]
    · rw [List.map_cons, if_neg ha, assocGet_cons, assocGet_cons, ih]

theorem isSome_find?_eq_isSome_assocGet {α : Type} (l : List (String × α)) (k : String) :
    (l.find? (fun kv => kv.1 = k)).isSome = (assocGet l k).isSome := by
  unfold assocGet
  cases l.find? (fun kv => kv.1 = k) <;> rfl

theorem assocSet_eq {α : Type} (l : List (String × α)) (k : String) (v : α) :
    assocSet l k v =
      if (assocGet l k).isSome then
        l.map (fun kv => if kv.1 = k then (k, v) else kv)
      else l ++ [(k, v)] := by
  unfold assocSet
  rw [isSome_find?_eq_isSome_assocGet]

theorem assocGet_set_self {α : Type} (l : List (String × α)) (k : String) (v : α) :
    assocGet (assocSet l k v) k = some v := by
  rw [assocSet_eq]
  by_cases h : (assocGet l k).isSome
  · rw [if_pos h, assocGet_overwrite]
    obtain ⟨w, hw⟩ := Option.isSome_iff_exists.mp h
    rw [hw]
    rfl
  · rw [if_neg h, assocGet_append]
    rw [Option.not_isSome_iff_eq_none] at h
    rw [h]
    simp [assocGet_cons]

theorem assocGet_set_ne {α : Type} (l : List (String × α)) (k k2 : String) (v : α)
    (h : k2 ≠ k) :
    assocGet (assocSet l k v) k2 = assocGet l k2 := by
  rw [assocSet_eq]
  by_cases hs : (assocGet l k).isSome
  · rw [if_pos hs, assocGet_overwrite_ne _ _ _ _ h]
  · rw [if_neg hs, assocGet_append]
    have h1 : ((k, v) : String × α).1 ≠ k2 := fun hk => h hk.symm
    cases hget : assocGet l k2 <;> simp [assocGet_cons, if_neg h1, assocGet]

theorem assocGet_delete_self {α : Type} (l : List (String × α)) (k : String) :
    assocGet (assocDelete l k) k = none := by
  induction l with
  | nil => rfl
  | cons a l ih =>
    by_cases ha : a.1 = k
    · simpa [assocDelete, List.filter_cons, ha] using ih
    · simp only [assocDelete, List.filter_cons, ne_eq, ha, not_false_iff, decide_True,
        if_pos] at ih ⊢
      rw [assocGet_cons, if_neg ha]
      exact ih

/-! ## C5 — subgraph addressing -/

/-- C5: encoding /index.js into the client subgraph and decoding with
`parseSubgraphPath` round-trips, and a tag other than client or server is
rejected; but `unSubGraphPath` of the encoded path returns ")/index.js"
rather than "/index.js" — the source slices from `end` instead of
`end + 1`, so the claimed inverse property fails for `unSubGraphPath`. -/
theorem c5_unSubGraphPath_keeps_closing_paren :
    toSubGraphPath "/index.js" (some .client) = .ok "(client)/index.js" ∧
    parseSubgraphPath "(client)/index.js" true = .ok ("/index.js", some .client) ∧
    (∃ msg, parseSubgraphPath "(story)/index.js" true = .error (.jsError msg)) ∧
    unSubGraphPath "(client)/index.js" true = .ok ")/index.js" ∧
    (")/index.js" : String) ≠ "/index.js" :=
  ⟨rfl, rfl, ⟨"Invalid subgraph ID story from path (story)/index.js", rfl⟩, rfl, by decide⟩

/-! ## C10 — processPackageJSON atomicity -/

/-- C10: when the content of /package.json fails to parse,
`processPackageJSON` throws exactly when no previously parsed
package.json exists; with a previous parse the error is swallowed and
`parsedPackageJSON` keeps its previous value. -/
theorem c10_processPackageJSON_atomic (parse : String → Except JsError IPackageJSON)
    (content : String) (prev : Option IPackageJSON) (e : JsError)
    (h : parse content = .error e) :
    (prev = none → processPackageJSON parse content prev = .error e) ∧
    (∀ p, prev = some p → processPackageJSON parse content prev = .ok (some p)) := by
  refine ⟨fun hp => ?_, fun p hp => ?_⟩ <;> subst hp <;> simp [processPackageJSON, h]

theorem c10_processPackageJSON_atomic_witness :
    parseAlwaysFails "not json" = .error (.jsError "Unexpected token u in JSON at position 0") ∧
    processPackageJSON parseAlwaysFails "not json" none =
      .error (.jsError "Unexpected token u in JSON at position 0") ∧
    processPackageJSON parseAlwaysFails "not json" (some {}) = .ok (some {}) :=
  ⟨rfl,
   (c10_processPackageJSON_atomic parseAlwaysFails "not json" none _ rfl).1 rfl,
   (c10_processPackageJSON_atomic parseAlwaysFails "not json" (some {}) _ rfl).2 {} rfl⟩

/-! ## C8 — Module.compile is a no-op on a settled module -/

/-- C8: on a module whose `compiled` or `compilationError` is already
non-null, `compile()` returns at once: the module and the bundler state
(including the transformer invocation count) are unchanged. -/
theorem c8_compile_idempotent (env : CompileEnv) (m : ModuleC) (b : BundlerC)
    (h : m.compiled ≠ none ∨ m.compilationError ≠ none) :
    compileModule env m b = (m, b) := by
  unfold compileModule
  rw [if_pos h]

theorem c8_compile_idempotent_witness :
    (precompiledModule.compiled ≠ none ∨ precompiledModule.compilationError ≠ none) ∧
    compileModule envSingleError precompiledModule {} = (precompiledModule, {}) :=
  ⟨Or.inl (by decide), c8_compile_idempotent envSingleError precompiledModule {} (Or.inl (by decide))⟩

/-! ## C1 — the compiled/compilationError exclusivity invariant -/

/-- C1: evaluating `Module.compile()` on a fresh module whose single
transformer reports a structured `BundlerError`: the error is stored,
yet the loop still falls through to `this.compiled = code`, leaving both
`compilationError` and `compiled` non-null — the claimed exclusivity
invariant does not hold after this compile. -/
theorem c1_error_and_compiled_coexist :
    (compileModule envSingleError freshModule {}).1.compilationError = some errSyntax ∧
    (compileModule envSingleError freshModule {}).1.compiled = some "var x" :=
  ⟨rfl, rfl⟩

/-! ## C2 — transformer errors do not short-circuit -/

/-- C2: with a first transformer reporting a structured `BundlerError`
and a second transformer succeeding, the second transformer is still
invoked (two invocations counted), the error is stored, and the
compile even records the second transformer's output as compiled code —
the claimed short-circuit does not happen. -/
theorem c2_transformers_not_short_circuited :
    (compileModule envErrorThenSuccess freshModule {}).2.transformerCalls = 2 ∧
    (compileModule envErrorThenSuccess freshModule {}).1.compilationError = some errSyntax ∧
    (compileModule envErrorThenSuccess freshModule {}).1.compiled = some "OK" :=
  ⟨rfl, rfl, rfl⟩

/-! ## C4 — circular imports and re-entrant getExports -/

/-- C4: a `getExports()` call on an evaluation still in the Started state
returns the current (possibly incomplete) exports object with the system
unchanged — no re-execution; and in the concrete circular system where A
requires B and B requires A, evaluating A terminates, finishing both
modules, with the require of A performed by B observing only the partial
exports of A (`a1` set before A required B, without `b` or `a2`) — made
possible because `Module.evaluate()` assigns the new Evaluation to the
module before running `getExports()`. -/
theorem c4_circular_import_stability :
    (∀ (σ : SysE) (fuel : Nat) (id : String) (m : ModuleE) (ev : EvaluationE),
      assocGet σ.modules id = some m → m.evaluation = some ev → ev.status = .started →
      getExportsM σ (fuel + 1) id = some (σ, .ok ev.exports)) ∧
    evaluateM sysAB 20 "A" = some (sysABFinal, .ok ()) := by
  constructor
  · intro σ fuel id m ev h1 h2 h3
    simp [getExportsM, postExports, h1, h2, h3]
  · rfl

theorem c4_circular_import_stability_witness :
    assocGet startedSys.modules "S" =
      some ⟨some [], [], some ⟨.started, [("k", .str "v")], none⟩⟩ ∧
    getExportsM startedSys 1 "S" = some (startedSys, .ok [("k", .str "v")]) :=
  ⟨rfl, c4_circular_import_stability.1 startedSys 0 "S" _ _ rfl rfl rfl⟩

/-! ## C9 — writeNewFiles and the incremental no-op short-circuit -/

theorem writeNewFiles_cons (fs : SandboxFS) (f : ISandboxFile) (rest : List ISandboxFile) :
    writeNewFiles fs (f :: rest) =
      ((writeNewFiles (fs.write f.path f.code) rest).1,
       (match fs.read f.path with
        | some content => if content ≠ f.code then [f.path] else []
        | none => []) ++ (writeNewFiles (fs.write f.path f.code) rest).2) := by
  conv_lhs => rw [writeNewFiles]

theorem writeNewFiles_read_other (files : List ISandboxFile) (fs : SandboxFS) (p : String)
    (h : ∀ f ∈ files, f.path ≠ p) :
    (writeNewFiles fs files).1.read p = fs.read p := by
  induction files generalizing fs with
  | nil => rfl
  | cons f rest ih =>
    rw [writeNewFiles_cons]
    have hne : f.path ≠ p := h f (by simp)
    have : (fs.write f.path f.code).read p = fs.read p := by
      unfold SandboxFS.write SandboxFS.read
      exact assocGet_set_ne _ _ _ _ (fun hp => hne hp.symm)
    rw [ih _ (fun g hg => h g (by simp [hg])), this]

theorem writeNewFiles_read_written (files : List ISandboxFile) (fs : SandboxFS)
    (h : (files.map ISandboxFile.path).Nodup) :
    ∀ f ∈ files, (writeNewFiles fs files).1.read f.path = some f.code := by
  induction files generalizing fs with
  | nil => intro f hf; cases hf
  | cons g rest ih =>
    intro f hf
    rw [List.map_cons, List.nodup_cons] at h
    rcases List.mem_cons.mp hf with hf | hf
    · subst hf
      rw [writeNewFiles_cons]
      have hrest : ∀ x ∈ rest, x.path ≠ f.path := by
        intro x hx hcontra
        exact h.1 (hcontra ▸ List.mem_map_of_mem ISandboxFile.path hx)
      rw [writeNewFiles_read_other rest _ f.path hrest]
      unfold SandboxFS.write SandboxFS.read
      exact assocGet_set_self _ _ _
    · rw [writeNewFiles_cons]
      exact ih _ h.2 f hf

theorem writeNewFiles_changed_eq (files : List ISandboxFile) (fs : SandboxFS)
    (h : (files.map ISandboxFile.path).Nodup) :
    (writeNewFiles fs files).2 = (files.filter (changedAgainst fs)).map ISandboxFile.path := by
  induction files generalizing fs with
  | nil => rfl
  | cons g rest ih =>
    rw [List.map_cons, List.nodup_cons] at h
    rw [writeNewFiles_cons, List.filter_cons]
    have hrest : (writeNewFiles (fs.write g.path g.code) rest).2 =
        (rest.filter (changedAgainst fs)).map ISandboxFile.path := by
      rw [ih _ h.2]
      congr 1
      apply List.filter_congr
      intro x hx
      have hne : x.path ≠ g.path := by
        intro hcontra
        exact h.1 (hcontra ▸ List.mem_map_of_mem ISandboxFile.path hx)
      unfold changedAgainst SandboxFS.read SandboxFS.write
      rw [assocGet_set_ne _ _ _ _ hne]
    rw [hrest]
    unfold changedAgainst
    cases hread : fs.read g.path with
    | none => simp
    | some c =>
      by_cases hc : c = g.code
      · simp [hc]
      · have : (c != g.code) = true := by simpa using hc
        simp [hc, this]

/-- C9 counterexample: with a files list repeating the same path, a path
that did not exist before the call is nevertheless in the returned list
(the second iteration reads what the first just wrote). -/
theorem c9_new_file_reported_changed :
    (SandboxFS.mk []).read "/p.js" = none ∧
    (writeNewFiles ⟨[]⟩ [⟨"/p.js", "x"⟩, ⟨"/p.js", "y"⟩]).2 = ["/p.js"] :=
  ⟨rfl, rfl⟩

/-- C9 (amended: for calls whose files list has pairwise distinct paths):
every file of the list ends up written with its code; the returned list
is exactly the paths of the files that previously existed with different
content; a file that did not exist before the call is therefore written
but not reported; and a non-first-load compile whose files all are new
short-circuits with a no-op thunk. -/
theorem c9_writeNewFiles_only_existing_changed (fs : SandboxFS) (files : List ISandboxFile)
    (h : (files.map ISandboxFile.path).Nodup) :
    (∀ f ∈ files, (writeNewFiles fs files).1.read f.path = some f.code) ∧
    (writeNewFiles fs files).2 = (files.filter (changedAgainst fs)).map ISandboxFile.path ∧
    (∀ f ∈ files, fs.read f.path = none → f.path ∉ (writeNewFiles fs files).2) ∧
    (∀ hasHMR : Bool, (∀ f ∈ files, fs.read f.path = none) →
      compileIncrementalPrefix false hasHMR fs files =
        ((writeNewFiles fs files).1, .noopThunk)) := by
  refine ⟨writeNewFiles_read_written files fs h, writeNewFiles_changed_eq files fs h, ?_, ?_⟩
  · intro f hf hnone hmem
    rw [writeNewFiles_changed_eq files fs h] at hmem
    rcases List.mem_map.mp hmem with ⟨g, hgmem, hgpath⟩
    rcases List.mem_filter.mp hgmem with ⟨hgfiles, hgchanged⟩
    have hg : g = f := by
      have hinj := List.inj_on_of_nodup_map h
      exact hinj hgfiles hf hgpath
    subst hg
    rw [changedAgainst, hnone] at hgchanged
    cases hgchanged
  · intro hasHMR hnew
    have hchanged : (writeNewFiles fs files).2 = [] := by
      rw [writeNewFiles_changed_eq files fs h]
      have : files.filter (changedAgainst fs) = [] := by
        apply List.filter_eq_nil_iff.mpr
        intro f hf
        rw [changedAgainst, hnew f hf]
        simp
      rw [this, List.map_nil]
    unfold compileIncrementalPrefix
    rcases hw : writeNewFiles fs files with ⟨a, b⟩
    rw [hw] at hchanged
    simp only at hchanged
    simp [hchanged]

theorem c9_writeNewFiles_only_existing_changed_witness :
    ((filesOldNew.map ISandboxFile.path).Nodup) ∧
    (writeNewFiles fsOldNew filesOldNew).2 =
      (filesOldNew.filter (changedAgainst fsOldNew)).map ISandboxFile.path :=
  ⟨by decide, (c9_writeNewFiles_only_existing_changed fsOldNew filesOldNew (by decide)).2.1⟩

/-! ## C7 — entry point resolution order -/

theorem firstResolved_dedupAux (tryResolve : String → Option String) :
    ∀ (l seen : List String), (∀ s ∈ seen, tryResolve (normalizeEntry s) = none) →
      firstResolved tryResolve (dedupKeepFirstAux seen l) = firstResolved tryResolve l := by
  intro l
  induction l with
  | nil => intro seen _; rfl
  | cons x xs ih =>
    intro seen hseen
    by_cases hx : x ∈ seen
    · rw [dedupKeepFirstAux, if_pos hx, ih seen hseen, firstResolved, hseen x hx]
    · rw [dedupKeepFirstAux, if_neg hx, firstResolved, firstResolved]
      cases hres : tryResolve (normalizeEntry x) with
      | some r => rfl
      | none =>
        apply ih
        intro s hs
        rcases List.mem_cons.mp hs with hs | hs
        · rw [hs, hres]
        · exact hseen s hs

/-- C7: `resolveEntryPoint` throws a BundlerError when package.json has
not been parsed or no preset is loaded; otherwise it returns the first
candidate accepted by the resolver trying, in exactly this order, the
package.json `main`, `source` and `module` fields, then each preset
default entry point suffixed with `.` plus the subgraph id (when one is
given), then the plain preset default entry points (`entryCandidates`
spells out that list), and throws a BundlerError when none resolves. -/
theorem c7_resolveEntryPoint_order :
    (∀ preset tryResolve subgraphId,
      resolveEntryPoint none preset tryResolve subgraphId =
        .error (.bundlerError "No parsed package.json found!")) ∧
    (∀ pkg tryResolve subgraphId,
      resolveEntryPoint (some pkg) none tryResolve subgraphId =
        .error (.bundlerError "Preset has not been loaded yet")) ∧
    (∀ pkg pr tryResolve subgraphId,
      resolveEntryPoint (some pkg) (some pr) tryResolve subgraphId =
        match firstResolved tryResolve (entryCandidates pkg pr subgraphId) with
        | some r => .ok r
        | none => .error (.bundlerError "Could not resolve entry point")) := by
  refine ⟨fun _ _ _ => rfl, fun _ _ _ => rfl, fun pkg pr tryResolve subgraphId => ?_⟩
  unfold resolveEntryPoint dedupKeepFirst
  have h := firstResolved_dedupAux tryResolve (entryCandidates pkg pr subgraphId) []
    (fun s hs => absurd hs (List.not_mem_nil s))
  simp only [h]

theorem c7_resolveEntryPoint_order_witness :
    resolveEntryPoint (some { main := some "app.js" }) (some ⟨["index.js"]⟩)
      (fun s => if s = "./app.js" then some "/app.js" else none) none = .ok "/app.js" := by
  rw [(c7_resolveEntryPoint_order.2.2 { main := some "app.js" } ⟨["index.js"]⟩
    (fun s => if s = "./app.js" then some "/app.js" else none) none)]
  rfl

/-! ## C6 — subgraph fork detection and clearing -/

theorem addDependencies_preserves (env : CompileEnv) :
    ∀ (deps : List String) (m : ModuleC) (b : BundlerC),
      (∀ m' b', addDependencies env deps m b = .ok (m', b') →
        b'.forkMap = b.forkMap ∧ b'.scheduledTransforms = b.scheduledTransforms) ∧
      (∀ e m' b', addDependencies env deps m b = .error (e, m', b') →
        b'.forkMap = b.forkMap ∧ b'.scheduledTransforms = b.scheduledTransforms) := by
  intro deps
  induction deps with
  | nil =>
    intro m b
    exact ⟨fun m' b' h => by cases h; exact ⟨rfl, rfl⟩, fun e m' b' h => by cases h⟩
  | cons d rest ih =>
    intro m b
    have key : ∀ (P : Except (JsError × ModuleC × BundlerC) (ModuleC × BundlerC) → Prop),
        (∀ e, addDependency env m b d = .error e → P (.error (e, m, b))) →
        (∀ m1 b1, addDependency env m b d = .ok (m1, b1) →
          P (addDependencies env rest m1 b1)) →
        P (addDependencies env (d :: rest) m b) := by
      intro P herr hok
      rw [addDependencies]
      cases hd : addDependency env m b d with
      | error e => exact herr e hd
      | ok mb => obtain ⟨m1, b1⟩ := mb; exact hok m1 b1 hd
    have hstep : ∀ m1 b1, addDependency env m b d = .ok (m1, b1) →
        b1.forkMap = b.forkMap ∧ b1.scheduledTransforms = b.scheduledTransforms := by
      intro m1 b1 hd
      rw [addDependency] at hd
      cases hr : env.resolveDep d with
      | error e => rw [hr] at hd; cases hd
      | ok resolved => rw [hr] at hd; cases hd; exact ⟨rfl, rfl⟩
    constructor
    · intro m' b'
      refine key (fun res => res = .ok (m', b') →
        b'.forkMap = b.forkMap ∧ b'.scheduledTransforms = b.scheduledTransforms) ?_ ?_
      · intro e _ h; cases h
      · intro m1 b1 hd h
        have hb1 := hstep m1 b1 hd
        have := (ih m1 b1).1 m' b' h
        exact ⟨this.1.trans hb1.1, this.2.trans hb1.2⟩
    · intro e m' b'
      refine key (fun res => res = .error (e, m', b') →
        b'.forkMap = b.forkMap ∧ b'.scheduledTransforms = b.scheduledTransforms) ?_ ?_
      · intro e2 _ h; cases h; exact ⟨rfl, rfl⟩
      · intro m1 b1 hd h
        have hb1 := hstep m1 b1 hd
        have := (ih m1 b1).2 e m' b' h
        exact ⟨this.1.trans hb1.1, this.2.trans hb1.2⟩

theorem compileLoop_cons_marked (env : CompileEnv) (t : TransformerFn)
    (ts : List TransformerFn) (code : String) (m : ModuleC) (b : BundlerC) :
    compileLoop env (t :: ts) code true m b =
      (match t code with
       | .error e => .error (e, m, { b with transformerCalls := b.transformerCalls + 1 })
       | .ok (.bundlerError e) =>
         compileLoop env ts code true { m with compilationError := some e }
           { b with transformerCalls := b.transformerCalls + 1 }
       | .ok (.success newCode deps _) =>
         match addDependencies env deps m
             { b with transformerCalls := b.transformerCalls + 1 } with
         | .error e => .error e
         | .ok (m', b'') => compileLoop env ts newCode true m' b'') := by
  rw [compileLoop]
  cases t code with
  | error e => rfl
  | ok tr => cases tr with
    | bundlerError e => rfl
    | success newCode deps isFork => rfl

theorem compileLoop_marked_preserves (env : CompileEnv) :
    ∀ (ts : List TransformerFn) (code : String) (m : ModuleC) (b : BundlerC),
      (∀ r, compileLoop env ts code true m b = .ok r →
        r.2.2.forkMap = b.forkMap ∧ r.2.2.scheduledTransforms = b.scheduledTransforms) ∧
      (∀ e, compileLoop env ts code true m b = .error e →
        e.2.2.forkMap = b.forkMap ∧ e.2.2.scheduledTransforms = b.scheduledTransforms) := by
  intro ts
  induction ts with
  | nil =>
    intro code m b
    exact ⟨fun r h => by cases h; exact ⟨rfl, rfl⟩, fun e h => by cases h⟩
  | cons t rest ih =>
    intro code m b
    constructor
    · intro r h
      rw [compileLoop_cons_marked] at h
      cases ht : t code with
      | error e => rw [ht] at h; simp only [] at h; cases h
      | ok tr =>
        rw [ht] at h
        cases tr with
        | bundlerError e =>
          simp only [] at h
          exact (ih code { m with compilationError := some e }
            { b with transformerCalls := b.transformerCalls + 1 }).1 r h
        | success newCode deps isFork =>
          simp only [] at h
          cases had : addDependencies env deps m
              { b with transformerCalls := b.transformerCalls + 1 } with
          | error e2 => rw [had] at h; simp only [] at h; cases h
          | ok mb =>
            rw [had] at h
            obtain ⟨m1, b1⟩ := mb
            simp only [] at h
            have hb1 := (addDependencies_preserves env deps m _).1 m1 b1 had
            have := (ih newCode m1 b1).1 r h
            exact ⟨this.1.trans hb1.1, this.2.trans hb1.2⟩
    · intro e h
      rw [compileLoop_cons_marked] at h
      cases ht : t code with
      | error e2 =>
        rw [ht] at h
        simp only [] at h
        cases h
        exact ⟨rfl, rfl⟩
      | ok tr =>
        rw [ht] at h
        cases tr with
        | bundlerError e2 =>
          simp only [] at h
          exact (ih code { m with compilationError := some e2 }
            { b with transformerCalls := b.transformerCalls + 1 }).2 e h
        | success newCode deps isFork =>
          simp only [] at h
          cases had : addDependencies env deps m
              { b with transformerCalls := b.transformerCalls + 1 } with
          | error e2 =>
            rw [had] at h
            simp only [] at h
            obtain ⟨e3, m3, b3⟩ := e2
            cases h
            exact (addDependencies_preserves env deps m
              { b with transformerCalls := b.transformerCalls + 1 }).2 e3 m3 b3 had
          | ok mb =>
            rw [had] at h
            obtain ⟨m1, b1⟩ := mb
            simp only [] at h
            have hb1 := (addDependencies_preserves env deps m _).1 m1 b1 had
            have := (ih newCode m1 b1).2 e h
            exact ⟨this.1.trans hb1.1, this.2.trans hb1.2⟩

theorem compileLoop_cons_unmarked_fork (env : CompileEnv) (t : TransformerFn)
    (ts : List TransformerFn) (code : String) (m : ModuleC) (b : BundlerC) (g : SubgraphId)
    (c : String) (deps : List String) (otherId : String)
    (hg : m.subgraphId = some g) (ht : t code = .ok (.success c deps true))
    (htsp : toSubGraphPath m.filepath (some (getOtherSubgraph g)) = .ok otherId) :
    compileLoop env (t :: ts) code false m b =
      (match addDependencies env deps m
          { b with transformerCalls := b.transformerCalls + 1,
                   forkMap := assocSet b.forkMap m.filepath
                     ⟨⟨g, m.id⟩, ⟨getOtherSubgraph g, otherId⟩⟩,
                   scheduledTransforms := b.scheduledTransforms ++ [otherId] } with
       | .error e => .error e
       | .ok (m', b'') => compileLoop env ts c true m' b'') := by
  rw [compileLoop, ht]
  simp only [hg, htsp, Bool.false_eq_true, if_false, eq_self_iff_true, if_true]

theorem compileLoop_cons_unmarked_clear (env : CompileEnv) (t : TransformerFn)
    (ts : List TransformerFn) (code : String) (m : ModuleC) (b : BundlerC) (g : SubgraphId)
    (c : String) (deps : List String) (f : SubgraphForkInfo)
    (hg : m.subgraphId = some g) (ht : t code = .ok (.success c deps false))
    (hex : assocGet b.forkMap m.filepath = some f) (hne : f.target.moduleId ≠ m.id) :
    compileLoop env (t :: ts) code false m b =
      (match addDependencies env deps m
          { b with transformerCalls := b.transformerCalls + 1,
                   forkMap := assocDelete b.forkMap m.filepath } with
       | .error e => .error e
       | .ok (m', b'') => compileLoop env ts c false m' b'') := by
  rw [compileLoop, ht]
  simp only [hg, hex, if_neg hne, Bool.false_eq_true, if_false]

/-- C6: first part — compiling a subgraph-tagged uncompiled module whose
(first) transformer reports `isSubgraphFork` records in the fork map,
keyed by the resource path, a record whose source is this module's
subgraph and id and whose target is the counterpart module id in the
other subgraph, and schedules a `transformModule` for that counterpart —
whatever the remaining transformers and dependency resolutions do.
Second part — recompiling an uncompiled module for the same resource
whose transformer does not report a fork, when the recorded fork's
target is not this module, deletes the fork record. -/
theorem c6_subgraph_fork_detection_and_clearing :
    (∀ (env : CompileEnv) (m : ModuleC) (b : BundlerC) (g : SubgraphId)
       (t : TransformerFn) (ts : List TransformerFn) (c : String) (deps : List String)
       (otherId : String),
      m.compiled = none → m.compilationError = none → m.subgraphId = some g →
      env.preset = some (t :: ts) →
      t m.source = .ok (.success c deps true) →
      toSubGraphPath m.filepath (some (getOtherSubgraph g)) = .ok otherId →
      assocGet (compileModule env m b).2.forkMap m.filepath =
          some ⟨⟨g, m.id⟩, ⟨getOtherSubgraph g, otherId⟩⟩ ∧
        otherId ∈ (compileModule env m b).2.scheduledTransforms) ∧
    (∀ (env : CompileEnv) (m : ModuleC) (b : BundlerC) (g : SubgraphId)
       (t : TransformerFn) (c : String) (deps : List String) (f : SubgraphForkInfo),
      m.compiled = none → m.compilationError = none → m.subgraphId = some g →
      env.preset = some [t] →
      t m.source = .ok (.success c deps false) →
      assocGet b.forkMap m.filepath = some f →
      f.target.moduleId ≠ m.id →
      assocGet (compileModule env m b).2.forkMap m.filepath = none) := by
  constructor
  · intro env m b g t ts c deps otherId h1 h2 hg hpreset ht htsp
    have hbody := compileLoop_cons_unmarked_fork env t ts m.source m b g c deps otherId hg ht htsp
    unfold compileModule
    rw [if_neg (by simp [h1, h2]), hpreset]
    simp only [List.isEmpty_cons, Bool.false_eq_true, if_false]
    rw [hbody]
    have hgoal : ∀ (bfin : BundlerC),
        bfin.forkMap = assocSet b.forkMap m.filepath
            ⟨⟨g, m.id⟩, ⟨getOtherSubgraph g, otherId⟩⟩ →
        bfin.scheduledTransforms = b.scheduledTransforms ++ [otherId] →
        assocGet bfin.forkMap m.filepath =
            some ⟨⟨g, m.id⟩, ⟨getOtherSubgraph g, otherId⟩⟩ ∧
          otherId ∈ bfin.scheduledTransforms := by
      intro bfin hf hs
      rw [hf, hs]
      exact ⟨assocGet_set_self _ _ _, List.mem_append_right _ (List.mem_singleton.mpr rfl)⟩
    cases had : addDependencies env deps m
        { b with transformerCalls := b.transformerCalls + 1,
                 forkMap := assocSet b.forkMap m.filepath
                   ⟨⟨g, m.id⟩, ⟨getOtherSubgraph g, otherId⟩⟩,
                 scheduledTransforms := b.scheduledTransforms ++ [otherId] } with
    | error e3 =>
      obtain ⟨e4, m4, b4⟩ := e3
      have hp := (addDependencies_preserves env deps m _).2 e4 m4 b4 had
      simp only []
      exact hgoal b4 hp.1 hp.2
    | ok mb =>
      obtain ⟨m1, b1⟩ := mb
      have hp1 := (addDependencies_preserves env deps m _).1 m1 b1 had
      simp only []
      cases hloop : compileLoop env ts c true m1 b1 with
      | ok r =>
        obtain ⟨cr, mr, br⟩ := r
        have hp2 := (compileLoop_marked_preserves env ts c m1 b1).1 (cr, mr, br) hloop
        simp only []
        exact hgoal br (hp2.1.trans hp1.1) (hp2.2.trans hp1.2)
      | error e3 =>
        obtain ⟨e4, m4, b4⟩ := e3
        have hp2 := (compileLoop_marked_preserves env ts c m1 b1).2 (e4, m4, b4) hloop
        simp only []
        exact hgoal b4 (hp2.1.trans hp1.1) (hp2.2.trans hp1.2)
  · intro env m b g t c deps f h1 h2 hg hpreset ht hex hne
    have hbody := compileLoop_cons_unmarked_clear env t [] m.source m b g c deps f hg ht hex hne
    unfold compileModule
    rw [if_neg (by simp [h1, h2]), hpreset]
    simp only [List.isEmpty_cons, Bool.false_eq_true, if_false]
    rw [hbody]
    cases had : addDependencies env deps m
        { b with transformerCalls := b.transformerCalls + 1,
                 forkMap := assocDelete b.forkMap m.filepath } with
    | error e3 =>
      obtain ⟨e4, m4, b4⟩ := e3
      have hp := (addDependencies_preserves env deps m _).2 e4 m4 b4 had
      simp only []
      rw [hp.1]
      exact assocGet_delete_self _ _
    | ok mb =>
      obtain ⟨m1, b1⟩ := mb
      have hp1 := (addDependencies_preserves env deps m _).1 m1 b1 had
      simp only []
      rw [compileLoop]
      simp only []
      rw [hp1.1]
      exact assocGet_delete_self _ _

theorem c6_subgraph_fork_detection_and_clearing_witness :
    (clientAppModule.compiled = none ∧ clientAppModule.compilationError = none ∧
      clientAppModule.subgraphId = some .client ∧
      toSubGraphPath clientAppModule.filepath (some (getOtherSubgraph .client)) =
        .ok "(server)/App.js" ∧
      assocGet forkedBundler.forkMap "/App.js" =
        some ⟨⟨.client, "(client)/App.js"⟩, ⟨.server, "(server)/App.js"⟩⟩) ∧
    (assocGet (compileModule envForkOnce clientAppModule {}).2.forkMap "/App.js" =
        some ⟨⟨.client, "(client)/App.js"⟩, ⟨.server, "(server)/App.js"⟩⟩ ∧
      "(server)/App.js" ∈ (compileModule envForkOnce clientAppModule {}).2.scheduledTransforms) ∧
    assocGet (compileModule envNoFork clientAppModule forkedBundler).2.forkMap "/App.js" = none :=
  ⟨⟨rfl, rfl, rfl, rfl, rfl⟩,
   c6_subgraph_fork_detection_and_clearing.1 envForkOnce clientAppModule {} .client
     (fun _ => .ok (.success "F" [] true)) [] "F" [] "(server)/App.js"
     rfl rfl rfl rfl rfl rfl,
   c6_subgraph_fork_detection_and_clearing.2 envNoFork clientAppModule forkedBundler .client
     (fun _ => .ok (.success "N" [] false)) "N" []
     ⟨⟨.client, "(client)/App.js"⟩, ⟨.server, "(server)/App.js"⟩⟩
     rfl rfl rfl rfl rfl rfl (by decide)⟩

/-! ## C3 — moduleFinishedPromise -/

theorem length_filter_mono {α : Type} (l : List α) (p q : α → Bool)
    (h : ∀ a, p a = true → q a = true) :
    (l.filter p).length ≤ (l.filter q).length := by
  induction l with
  | nil => simp
  | cons a l ih =>
    by_cases hp : p a = true
    · rw [List.filter_cons_of_pos hp, List.filter_cons_of_pos (h a hp)]
      simpa using ih
    · rw [List.filter_cons_of_neg (by simpa using hp)]
      by_cases hq : q a = true
      · rw [List.filter_cons_of_pos hq]
        exact Nat.le_succ_of_le ih
      · rw [List.filter_cons_of_neg (by simpa using hq)]
        exact ih

theorem unvisited_mono (st : BundlerF) {visited v : List String} (hsub : visited ⊆ v) :
    unvisitedKeys st v ≤ unvisitedKeys st visited := by
  unfold unvisitedKeys
  apply length_filter_mono
  intro a ha
  simp only [decide_eq_true_eq] at ha ⊢
  intro hmem
  exact ha (hsub hmem)

theorem unvisited_insert_lt (st : BundlerF) {id : String} {visited : List String}
    (hkey : id ∈ st.modules.map Prod.fst) (hid : id ∉ visited) :
    unvisitedKeys st (id :: visited) < unvisitedKeys st visited := by
  unfold unvisitedKeys
  have hidd : id ∈ (st.modules.map Prod.fst).dedup := List.mem_dedup.mpr hkey
  set K := (st.modules.map Prod.fst).dedup with hK
  have hstep : K.filter (fun k => k ∉ (id :: visited)) =
      (K.filter (fun k => k ∉ visited)).filter (fun k => k ≠ id) := by
    rw [List.filter_filter]
    apply List.filter_congr
    intro x _
    by_cases h1 : x = id <;> by_cases h2 : x ∈ visited <;>
      simp [h1, h2, List.mem_cons]
  rw [hstep]
  have hnd : (K.filter (fun k => k ∉ visited)).Nodup := (List.nodup_dedup _).filter _
  have hidL : id ∈ K.filter (fun k => k ∉ visited) :=
    List.mem_filter.mpr ⟨hidd, by simpa using hid⟩
  have herase : (K.filter (fun k => k ∉ visited)).filter (fun k => k ≠ id) =
      (K.filter (fun k => k ∉ visited)).erase id := by
    rw [List.Nodup.erase_eq_filter hnd]
    apply List.filter_congr
    intro x _
    by_cases hx : x = id <;> simp [hx]
  rw [herase, List.length_erase_of_mem hidL]
  have hpos : 0 < (K.filter (fun k => k ∉ visited)).length :=
    List.length_pos_of_mem hidL
  omega

theorem assocGet_mem_keys {α : Type} (l : List (String × α)) (k : String) (v : α)
    (h : assocGet l k = some v) : k ∈ l.map Prod.fst := by
  unfold assocGet at h
  cases hf : l.find? (fun kv => kv.1 = k) with
  | none => rw [hf] at h; cases h
  | some kv =>
    have hmem := List.mem_of_find?_eq_some hf
    have hpred := List.find?_some hf
    have hkk : kv.1 = k := by simpa using hpred
    rw [← hkk]
    exact List.mem_map_of_mem Prod.fst hmem

theorem mfp_ok_invariant (st : BundlerF) : ∀ fuel : Nat,
    (∀ id visited v', mfpGo st fuel id visited = some (.ok v') →
      visited ⊆ v' ∧ id ∈ v' ∧
      ∀ x ∈ v', x ∉ visited → goodModule st x ∧
        ∀ mod, assocGet st.modules x = some mod → ∀ d ∈ mod.dependencies, d ∈ v') ∧
    (∀ ds visited v', mfpDeps st fuel ds visited = some (.ok v') →
      visited ⊆ v' ∧ (∀ d ∈ ds, d ∈ v') ∧
      ∀ x ∈ v', x ∉ visited → goodModule st x ∧
        ∀ mod, assocGet st.modules x = some mod → ∀ d ∈ mod.dependencies, d ∈ v') := by
  intro fuel
  induction fuel with
  | zero =>
    constructor
    · intro id visited v' h
      rw [mfpGo] at h
      cases h
    · intro ds
      induction ds with
      | nil =>
        intro visited v' h
        rw [mfpDeps] at h
        simp only [Option.some.injEq, Except.ok.injEq] at h
        subst h
        exact ⟨List.Subset.refl _, fun d hd => absurd hd (List.not_mem_nil d),
          fun x hx hnx => absurd hx hnx⟩
      | cons d rest ihd =>
        intro visited v' h
        rw [mfpDeps] at h
        by_cases hd : d ∈ visited
        · rw [if_pos hd] at h
          obtain ⟨hsub, hrest, hinv⟩ := ihd visited v' h
          refine ⟨hsub, ?_, hinv⟩
          intro d' hd'
          rcases List.mem_cons.mp hd' with h1 | h1
          · subst h1; exact hsub hd
          · exact hrest d' h1
        · rw [if_neg hd] at h
          rw [show mfpGo st 0 d visited = none from by rw [mfpGo]] at h
          simp at h
  | succ fuel ihf =>
    have hgo : ∀ id visited v', mfpGo st (fuel + 1) id visited = some (.ok v') →
        visited ⊆ v' ∧ id ∈ v' ∧
        ∀ x ∈ v', x ∉ visited → goodModule st x ∧
          ∀ mod, assocGet st.modules x = some mod → ∀ d ∈ mod.dependencies, d ∈ v' := by
      intro id visited v' h
      rw [mfpGo] at h
      by_cases hid : id ∈ visited
      · rw [if_pos hid] at h
        simp only [Option.some.injEq, Except.ok.injEq] at h
        subst h
        exact ⟨List.Subset.refl _, hid, fun x hx hnx => absurd hx hnx⟩
      · rw [if_neg hid] at h
        cases hmod : assocGet st.modules id with
        | none => rw [hmod] at h; simp at h
        | some asset =>
          rw [hmod] at h
          simp only [] at h
          cases herr : asset.compilationError with
          | some e => rw [herr] at h; simp at h
          | none =>
            rw [herr] at h
            simp only [] at h
            cases hcomp : asset.compiled with
            | none => rw [hcomp] at h; simp at h
            | some code =>
              rw [hcomp] at h
              simp only [] at h
              obtain ⟨hsub, hds, hinv⟩ := ihf.2 asset.dependencies (id :: visited) v' h
              have hsub2 : visited ⊆ v' := fun x hx => hsub (List.mem_cons_of_mem _ hx)
              have hidv : id ∈ v' := hsub (List.mem_cons_self _ _)
              refine ⟨hsub2, hidv, ?_⟩
              intro x hxv hxnv
              by_cases hxid : x = id
              · subst hxid
                constructor
                · exact ⟨asset, hmod, herr, by rw [hcomp]; exact fun hc => Option.noConfusion hc⟩
                · intro mod hmod2 d hdep
                  rw [hmod] at hmod2
                  injection hmod2 with hmm
                  subst hmm
                  exact hds d hdep
              · have hxnv2 : x ∉ id :: visited := by
                  intro hmem
                  rcases List.mem_cons.mp hmem with h1 | h1
                  · exact hxid h1
                  · exact hxnv h1
                exact hinv x hxv hxnv2
    refine ⟨hgo, ?_⟩
    intro ds
    induction ds with
    | nil =>
      intro visited v' h
      rw [mfpDeps] at h
      simp only [Option.some.injEq, Except.ok.injEq] at h
      subst h
      exact ⟨List.Subset.refl _, fun d hd => absurd hd (List.not_mem_nil d),
        fun x hx hnx => absurd hx hnx⟩
    | cons d rest ihd =>
      intro visited v' h
      rw [mfpDeps] at h
      by_cases hd : d ∈ visited
      · rw [if_pos hd] at h
        obtain ⟨hsub, hrest, hinv⟩ := ihd visited v' h
        refine ⟨hsub, ?_, hinv⟩
        intro d' hd'
        rcases List.mem_cons.mp hd' with h1 | h1
        · subst h1; exact hsub hd
        · exact hrest d' h1
      · rw [if_neg hd] at h
        cases hgo2 : mfpGo st (fuel + 1) d visited with
        | none => rw [hgo2] at h; simp at h
        | some res =>
          rw [hgo2] at h
          cases res with
          | error e => simp at h
          | ok v =>
            simp only [] at h
            obtain ⟨hsubv, hdv, hinvv⟩ := hgo d visited v hgo2
            obtain ⟨hsub2, hrest2, hinv2⟩ := ihd v v' h
            refine ⟨fun x hx => hsub2 (hsubv hx), ?_, ?_⟩
            · intro d' hd'
              rcases List.mem_cons.mp hd' with h1 | h1
              · subst h1; exact hsub2 hdv
              · exact hrest2 d' h1
            · intro x hxv' hxnv
              by_cases hxv : x ∈ v
              · obtain ⟨hg, hcl⟩ := hinvv x hxv hxnv
                exact ⟨hg, fun mod hm d2 hd2 => hsub2 (hcl mod hm d2 hd2)⟩
              · exact hinv2 x hxv' hxv

theorem mfp_complete (st : BundlerF) (R : String → Prop)
    (hgood : ∀ x, R x → goodModule st x)
    (hclosed : ∀ x, R x → ∀ mod, assocGet st.modules x = some mod →
      ∀ d ∈ mod.dependencies, R d) :
    ∀ fuel : Nat,
      (∀ id visited, R id → unvisitedKeys st visited < fuel →
        ∃ v', mfpGo st fuel id visited = some (.ok v') ∧ visited ⊆ v') ∧
      (∀ ds visited, (∀ d ∈ ds, R d) → unvisitedKeys st visited < fuel →
        ∃ v', mfpDeps st fuel ds visited = some (.ok v') ∧ visited ⊆ v') := by
  intro fuel
  induction fuel with
  | zero =>
    constructor <;> intro a b c hlt <;> exact absurd hlt (Nat.not_lt_zero _)
  | succ fuel ihf =>
    have hgo : ∀ id visited, R id → unvisitedKeys st visited < fuel + 1 →
        ∃ v', mfpGo st (fuel + 1) id visited = some (.ok v') ∧ visited ⊆ v' := by
      intro id visited hR hlt
      rw [mfpGo]
      by_cases hid : id ∈ visited
      · rw [if_pos hid]
        exact ⟨visited, rfl, List.Subset.refl _⟩
      · rw [if_neg hid]
        obtain ⟨mod, hmod, herr, hcomp⟩ := hgood id hR
        rw [hmod]
        simp only []
        rw [herr]
        simp only []
        cases hcompv : mod.compiled with
        | none => exact absurd hcompv hcomp
        | some code =>
          simp only []
          have hkey : id ∈ st.modules.map Prod.fst := assocGet_mem_keys _ _ _ hmod
          have hlt2 : unvisitedKeys st (id :: visited) < fuel :=
            Nat.lt_of_lt_of_le (unvisited_insert_lt st hkey hid) (Nat.lt_succ_iff.mp hlt)
          obtain ⟨v', hv', hsub⟩ := ihf.2 mod.dependencies (id :: visited)
            (hclosed id hR mod hmod) hlt2
          exact ⟨v', hv', fun x hx => hsub (List.mem_cons_of_mem _ hx)⟩
    refine ⟨hgo, ?_⟩
    intro ds
    induction ds with
    | nil =>
      intro visited _ _
      exact ⟨visited, by rw [mfpDeps], List.Subset.refl _⟩
    | cons d rest ihd =>
      intro visited hds hlt
      rw [mfpDeps]
      by_cases hd : d ∈ visited
      · rw [if_pos hd]
        exact ihd visited (fun x hx => hds x (List.mem_cons_of_mem _ hx)) hlt
      · rw [if_neg hd]
        obtain ⟨v, hv, hsubv⟩ := hgo d visited (hds d (List.mem_cons_self _ _)) hlt
        rw [hv]
        simp only []
        have hltv : unvisitedKeys st v < fuel + 1 :=
          Nat.lt_of_le_of_lt (unvisited_mono st hsubv) hlt
        obtain ⟨v', hv', hsub2⟩ := ihd v (fun x hx => hds x (List.mem_cons_of_mem _ hx)) hltv
        exact ⟨v', hv', fun x hx => hsub2 (hsubv hx)⟩

theorem unvisited_lt_fuelBound (st : BundlerF) : unvisitedKeys st [] < fuelBound st := by
  unfold unvisitedKeys fuelBound
  have h1 : ((st.modules.map Prod.fst).dedup.filter
        (fun k => k ∉ ([] : List String))).length ≤
      (st.modules.map Prod.fst).dedup.length := List.length_filter_le _ _
  have h2 : (st.modules.map Prod.fst).dedup.length ≤ (st.modules.map Prod.fst).length :=
    (List.dedup_sublist _).length_le
  have h3 : (st.modules.map Prod.fst).length = st.modules.length := List.length_map _ _
  omega

/-- C3: `moduleFinishedPromise(id, visited)` returns at once (succeeding
with the unchanged visited set) when `id` is already visited; throws the
"Asset not in the compilation tree" BundlerError when no module with
that id exists; re-throws the module's stored `compilationError` when one
is set; throws the "has not been compiled" BundlerError when the module
exists uncompiled; and — started on an empty visited set — it succeeds
exactly when every module reachable from `id` through the dependency
edges exists, has no compilation error and is compiled. -/
theorem c3_moduleFinishedPromise_spec :
    (∀ (st : BundlerF) (id : String) (visited : List String), id ∈ visited →
      moduleFinishedPromise st id visited = .ok visited) ∧
    (∀ (st : BundlerF) (id : String) (visited : List String), id ∉ visited →
      assocGet st.modules id = none →
      moduleFinishedPromise st id visited =
        .error (.bundlerError ("Asset not in the compilation tree " ++ id))) ∧
    (∀ (st : BundlerF) (id : String) (visited : List String) (asset : ModuleF) (e : JsError),
      id ∉ visited → assocGet st.modules id = some asset →
      asset.compilationError = some e →
      moduleFinishedPromise st id visited = .error e) ∧
    (∀ (st : BundlerF) (id : String) (visited : List String) (asset : ModuleF),
      id ∉ visited → assocGet st.modules id = some asset →
      asset.compilationError = none → asset.compiled = none →
      moduleFinishedPromise st id visited =
        .error (.bundlerError ("Asset " ++ id ++ " has not been compiled"))) ∧
    (∀ (st : BundlerF) (id : String),
      (∃ v', moduleFinishedPromise st id [] = .ok v') ↔
        (∀ x, Reach st id x → goodModule st x)) := by
  refine ⟨?_, ?_, ?_, ?_, ?_⟩
  · intro st id visited hid
    rw [moduleFinishedPromise, fuelBound, mfpGo, if_pos hid]
    rfl
  · intro st id visited hid hmod
    rw [moduleFinishedPromise, fuelBound, mfpGo, if_neg hid, hmod]
    rfl
  · intro st id visited asset e hid hmod herr
    rw [moduleFinishedPromise, fuelBound, mfpGo, if_neg hid, hmod]
    simp only []
    rw [herr]
    rfl
  · intro st id visited asset hid hmod herr hcomp
    rw [moduleFinishedPromise, fuelBound, mfpGo, if_neg hid, hmod]
    simp only []
    rw [herr]
    simp only []
    rw [hcomp]
    rfl
  · intro st id
    constructor
    · rintro ⟨v', hok⟩
      rw [moduleFinishedPromise] at hok
      cases hraw : mfpGo st (fuelBound st) id [] with
      | none => rw [hraw] at hok; cases hok
      | some res =>
        rw [hraw] at hok
        cases res with
        | error e => cases hok
        | ok v2 =>
          obtain ⟨hsub, hidv, hinv⟩ := (mfp_ok_invariant st (fuelBound st)).1 id [] v2 hraw
          have hmem : ∀ x, Reach st id x → x ∈ v2 := by
            intro x hr
            induction hr with
            | refl => exact hidv
            | step hr2 hm hc ih => exact (hinv _ ih (List.not_mem_nil _)).2 _ hm _ hc
          intro x hr
          exact (hinv x (hmem x hr) (List.not_mem_nil x)).1
    · intro hall
      have hclosed : ∀ x, Reach st id x → ∀ mod, assocGet st.modules x = some mod →
          ∀ d ∈ mod.dependencies, Reach st id d :=
        fun x hr mod hm d hd => Reach.step hr hm hd
      obtain ⟨v', hv', _⟩ := (mfp_complete st (Reach st id) hall hclosed (fuelBound st)).1
        id [] Reach.refl (unvisited_lt_fuelBound st)
      refine ⟨v', ?_⟩
      rw [moduleFinishedPromise, hv']
      rfl

theorem c3_moduleFinishedPromise_spec_witness :
    ("/a.js" ∉ ([] : List String)) ∧
    assocGet stErrored.modules "/a.js" = some { compilationError := some errSyntax } ∧
    ({ compilationError := some errSyntax } : ModuleF).compilationError = some errSyntax ∧
    moduleFinishedPromise stErrored "/a.js" [] = .error errSyntax :=
  ⟨by decide, rfl, rfl,
   c3_moduleFinishedPromise_spec.2.2.1 stErrored "/a.js" []
     { compilationError := some errSyntax } errSyntax (by decide) rfl rfl⟩

end Sandpack
